/-
Verification development for the Natural-Emotion-Processor core
(`src/main.py`, `src/TextAnalyser.py`, `src/AudioAnalyser.py`).

The Python code is shallowly embedded as follows.

* Python values that can appear in a metric slot (numbers, strings,
  dicts, lists, `None`) become the inductive type `Val`.  Python numbers
  are modelled as rationals; Python dicts become association lists in
  insertion order (real dicts never carry duplicate keys; the
  well-formedness predicate `WFAbstract` records this where proofs need
  it).
* The `namedtuple` feature records (`Abstracts.TextAbstract`,
  `Abstracts.AudioAbstract`, `Abstracts.VideoAbstract` in `main.py`) are
  embedded as association lists from slot name to `Val`, built by
  `mkAbstract` which replicates keyword construction with `None`
  defaults.
* `round(x, n)` is embedded as `roundTo n` using round-half-to-even on
  rationals (`rhe`), the tie-breaking rule of Python's `round`.
* Exceptions are embedded with `Except`: `DifferentialEngine.compute_delta`
  can raise `TypeError` from `c_val[k] - b_val[k]` when the current value
  is numeric but the baseline value is not, so it returns
  `Except Unit ...`; `extract_etoken` returns `Except PyErr EToken` where
  an `Except.error` models an uncaught Python exception escaping the call.
* External collaborators excluded by the spec (NLTK tokenisation and
  stopwords, pyspellchecker, fuzzywuzzy, the whitelist file, and the DSP
  primitives used by the audio analyser) are passed in as explicit
  parameters (`TextExt`, the arguments of `audioGetAnalysis`); everything
  computed from their outputs is translated directly from the source.
-/
import Mathlib

/-- Python value that can appear in a metric slot: a number (modelled as a
rational), a string, a dict (association list in insertion order), a list,
or `None`. -/
inductive Val where
  | vnum : ℚ → Val
  | vstr : String → Val
  | vdict : List (String × Val) → Val
  | vlist : List Val → Val
  | vnone : Val

/-- Value of one slot of a deviation mapping produced by
`DifferentialEngine.compute_delta`: a rounded number or a nested mapping of
rounded numbers. -/
inductive DVal where
  | dnum : ℚ → DVal
  | ddict : List (String × ℚ) → DVal

/-- Association-list lookup, the embedding of Python dict access and of
`getattr` on a namedtuple (first matching key wins; real dicts and field
lists have no duplicate keys). -/
def lk : List (String × α) → String → Option α
  | [], _ => none
  | (a, v) :: t, k => if a = k then some v else lk t k

/-- Kernel-computable floor of a rational (`Rat.floor_def`: this equals
`Int.floor`). -/
def qfloor (q : ℚ) : ℤ := q.num / (q.den : ℤ)

/-- Fractional part of a rational, computable companion of `Int.fract`. -/
def qfract (q : ℚ) : ℚ := q - (qfloor q : ℚ)

/-- Round-half-to-even to the nearest integer, the tie-breaking behaviour
of Python's builtin `round`. -/
def rhe (q : ℚ) : ℤ :=
  if qfract q < 1/2 then qfloor q
  else if 1/2 < qfract q then qfloor q + 1
  else if qfloor q % 2 = 0 then qfloor q else qfloor q + 1

/-- Embedding of Python's `round(x, p)` on our rational number model. -/
def roundTo (p : ℕ) (q : ℚ) : ℚ := (rhe (q * ((10 : ℚ) ^ p)) : ℚ) / ((10 : ℚ) ^ p)

/-- Python `round(x, 4)` as used by `DifferentialEngine.compute_delta`. -/
def round4 (q : ℚ) : ℚ := roundTo 4 q

/-- Python `round(x, 2)` as used by `AudioAnalyser.get_analysis`. -/
def round2 (q : ℚ) : ℚ := roundTo 2 q

/-- Feature Schema instance ("Abstract"): association list from slot name
to value, in the namedtuple's field order. -/
abbrev Abstract := List (String × Val)

/-- Raw metric mapping returned by a modality analyser. -/
abbrev RawMap := List (String × Val)

/-- Deviation mapping for one modality. -/
abbrev DeltaMap := List (String × DVal)

/-- Baseline mapping from modality name to Feature Schema instance. -/
abbrev BaseMap := List (String × Abstract)

/-- Field list of `Abstracts.AudioAbstract` (main.py lines 17-21). -/
def audioFields : List String :=
  ["pitch", "rhythm", "timbre", "accent", "pronunciations", "intensity",
   "cords", "idiosyncrasies", "melody"]

/-- Field list of `Abstracts.TextAbstract` (main.py lines 29-35). -/
def textFields : List String :=
  ["vocabulary-diversity", "word-preferences", "slang-rate",
   "Idiom-preferences", "Contraction-rate", "capitalization-ratio",
   "stop-words-rate", "punctuation-frequency", "typos-rate", "emoji-rate",
   "salutation-rate", "quoting-style", "abbreviation-rate"]

/-- Field list of `Abstracts.VideoAbstract` (main.py lines 23-27): empty. -/
def videoFields : List String := []

/-- Keyword construction of a namedtuple instance: every declared field
takes the value supplied for it, fields not supplied default to `None`
(`defaults=[None] * n` in main.py). -/
def mkAbstract (fields : List String) (raw : RawMap) : Abstract :=
  fields.map (fun f => (f, (lk raw f).getD Val.vnone))

/-- Embedding of `getattr(base, field)` for a namedtuple of the same
modality as the iterated one; a missing field defaults to `None` (it is
always present when both arguments share a modality). -/
def getattrD (a : Abstract) (f : String) : Val := (lk a f).getD Val.vnone

/-- Nested dict comprehension of `compute_delta` (main.py lines 55-56):
`{k: round(c_val[k] - b_val[k], 4) for k in c_val
   if isinstance(c_val[k], (int, float)) and k in b_val}`.
A key whose current value is numeric and whose baseline value is present
but not numeric makes the subtraction raise `TypeError`, modelled as
`Except.error ()`. -/
def nestedDelta : List (String × Val) → List (String × Val) → Except Unit (List (String × ℚ))
  | [], _ => .ok []
  | (k, v) :: rest, b =>
    match v with
    | .vnum cq =>
      match lk b k with
      | some (.vnum bq) => (nestedDelta rest b).map (fun t => (k, round4 (cq - bq)) :: t)
      | some _ => .error ()
      | none => nestedDelta rest b
    | _ => nestedDelta rest b

/-- Per-slot body of the `compute_delta` loop (main.py lines 47-56): a
numeric/numeric slot yields a rounded difference, a dict/dict slot yields
the nested mapping (possibly raising `TypeError`), any other combination
contributes nothing. -/
def slotDelta (cv bv : Val) : Except Unit (Option DVal) :=
  match cv, bv with
  | .vnum cq, .vnum bq => .ok (some (.dnum (round4 (cq - bq))))
  | .vdict cd, .vdict bd => (nestedDelta cd bd).map (fun nd => some (.ddict nd))
  | _, _ => .ok none

/-- The `for field in current._fields` loop of `compute_delta` (main.py
lines 46-56), iterating the current instance's slots in order and reading
the baseline slot through `getattr`. -/
def deltaFields : List (String × Val) → List (String × Val) → Except Unit DeltaMap
  | [], _ => .ok []
  | (f, cv) :: rest, b =>
    match slotDelta cv (getattrD b f) with
    | .error e => .error e
    | .ok none => deltaFields rest b
    | .ok (some dv) => (deltaFields rest b).map (fun t => (f, dv) :: t)

/-- Embedding of `DifferentialEngine.compute_delta` (main.py lines 41-57).
`none` models Python `None`; `if not current or not base: return {}` is
also triggered by an empty namedtuple (the video abstract), hence the
`isEmpty` test. -/
def computeDelta (current base : Option Abstract) : Except Unit DeltaMap :=
  match current, base with
  | some c, some b => if c.isEmpty || b.isEmpty then .ok [] else deltaFields c b
  | _, _ => .ok []

/-- Nested deviation mapping as the spec words it (§4.2 rule 2): for each
key of the current mapping that is also present in the baseline mapping
and numeric on both sides, the rounded difference; all other keys are
dropped.  Stated from the spec, to be compared with `nestedDelta`. -/
def specNestedDelta : List (String × Val) → List (String × Val) → List (String × ℚ)
  | [], _ => []
  | (k, v) :: rest, b =>
    match v with
    | .vnum cq =>
      match lk b k with
      | some (.vnum bq) => (k, round4 (cq - bq)) :: specNestedDelta rest b
      | _ => specNestedDelta rest b
    | _ => specNestedDelta rest b

/-- Well-formedness of one slot value: a dict value has no duplicate keys
(true of every real Python dict). -/
def wfValB : Val → Bool
  | .vdict cd => ((cd.map Prod.fst).dedup == cd.map Prod.fst)
  | _ => true

/-- Well-formed Feature Schema instance: slot names are distinct and every
dict-valued slot has distinct keys (always true of instances built from
Python namedtuples and dicts). -/
def WFAbstract (a : Abstract) : Prop :=
  (a.map Prod.fst).Nodup ∧ ∀ p ∈ a, wfValB p.2 = true

/-- External collaborators of `TextAnalyser.Analyser`, excluded by the spec
(§1) and passed in explicitly: NLTK punkt tokenisation and the stopwords
corpus, pyspellchecker, fuzzywuzzy's ratio, and the `WhiteList.dict` file
contents (lines stripped and lowercased, as `_load_whitelist` produces). -/
structure TextExt where
  tokenize : String → List String
  stopwords : List String
  spellUnknown : List String → List String
  spellKnown : String → Bool
  fuzzScore : String → String → ℕ

/-- Apostrophe character (code point 39). -/
def apos : Char := Char.ofNat 39

/-- Apostrophe as a one-character string. -/
def aposS : String := String.singleton apos

/-- Double-quote character (code point 34). -/
def dquote : Char := Char.ofNat 34

/-- Heuristic contraction set `_CONTRACTIONS` (TextAnalyser.py line 35). -/
def contractionsSet : List String :=
  ["i" ++ aposS ++ "m", "you" ++ aposS ++ "re", "he" ++ aposS ++ "s",
   "she" ++ aposS ++ "s", "it" ++ aposS ++ "s", "we" ++ aposS ++ "re",
   "they" ++ aposS ++ "re", "isn" ++ aposS ++ "t", "aren" ++ aposS ++ "t",
   "don" ++ aposS ++ "t", "doesn" ++ aposS ++ "t", "can" ++ aposS ++ "t",
   "won" ++ aposS ++ "t"]

/-- Heuristic slang set `_SLANG` (TextAnalyser.py line 36). -/
def slangSet : List String :=
  ["lol", "omg", "imo", "tldr", "fomo", "yolo", "tbh", "ikr", "vibe", "btw"]

/-- Idiom list `_IDIOMS` (TextAnalyser.py line 37). -/
def idiomsList : List String :=
  ["piece of cake", "break a leg", "spill the beans", "bite the bullet",
   "cost an arm and a leg"]

/-- Phonetic target set `_PHONETIC_TARGETS` (TextAnalyser.py line 38). -/
def phoneticTargets : List String :=
  ["you", "are", "see", "night", "great", "later", "for", "be"]

/-- Punctuation characters `string.punctuation` (`_PUNC_CHARS`). -/
def puncChars : String := "!\"#$%&\x27()*+,-./:;<=>?@[\\]^_\x60\x7b|\x7d~"

/-- Salutation set of `_get_salutation_rate` (TextAnalyser.py line 98). -/
def salutations : List String := ["hello", "hi", "dear", "regards", "hey"]

/-- Python `str.isalnum()`: non-empty and every character alphanumeric
(ASCII suffices for the inputs considered here). -/
def pyIsAlnum (s : String) : Bool := !s.isEmpty && s.toList.all Char.isAlphanum

/-- State built by `TextAnalyser.Analyser.__init__` (lines 40-49): the raw
text, its lowercased form, the alphanumeric tokens of the lowercased text,
and the character count.  `word_count` is `words.length`. -/
structure TAnalyser where
  raw : String
  text_lower : String
  words : List String
  char_count : ℕ

/-- Embedding of `TextAnalyser.Analyser.__init__`: lowercase, tokenize via
the external punkt tokenizer, keep alphanumeric tokens. -/
def mkAnalyser (ext : TextExt) (text : String) : TAnalyser :=
  let lower := text.toLower
  { raw := text
    text_lower := lower
    words := (ext.tokenize lower).filter pyIsAlnum
    char_count := text.length }

/-- Word count of the analyser state (`self.word_count`). -/
def wordCount (a : TAnalyser) : ℕ := a.words.length

/-- Distinct elements in first-occurrence order, the key order of a Python
`set`/`Counter` built by left-to-right insertion. -/
def firstOccurAux [DecidableEq α] : List α → List α → List α
  | [], _ => []
  | x :: t, seen => if x ∈ seen then firstOccurAux t seen else x :: firstOccurAux t (x :: seen)

/-- Distinct elements of a list in first-occurrence order. -/
def firstOccur [DecidableEq α] (l : List α) : List α := firstOccurAux l []

/-- Embedding of `_get_diversity` (lines 57-58): distinct-word count over
word count, with the denominator-zero guard yielding `0.0`. -/
def getDiversity (a : TAnalyser) : ℚ :=
  if wordCount a > 0 then ((a.words.dedup.length : ℚ) / (wordCount a : ℚ)) else 0

/-- Stable sort of counted words by descending count, then take three: the
embedding of `Counter(...).most_common(3)` (ties keep first-occurrence
order, as Python's `Counter` does). -/
def mostCommon3 (l : List String) : List (String × ℕ) :=
  (((firstOccur l).map (fun w => (w, l.count w))).mergeSort
    (fun p q => decide (q.2 ≤ p.2))).take 3

/-- Embedding of `_get_prefs` (lines 60-63): the three most common
non-stopword words, each mapped to its frequency over the word count. -/
def getPrefs (ext : TextExt) (a : TAnalyser) : List (String × ℚ) :=
  let meaningful := a.words.filter (fun w => !ext.stopwords.contains w)
  if wordCount a > 0 then
    (mostCommon3 meaningful).map (fun p => (p.1, (p.2 : ℚ) / (wordCount a : ℚ)))
  else []

/-- Embedding of `_get_slang_rate` (lines 65-66). -/
def getSlangRate (a : TAnalyser) : ℚ :=
  if wordCount a > 0 then
    ((a.words.countP (fun w => slangSet.contains w) : ℚ) / (wordCount a : ℚ))
  else 0

/-- Count of non-overlapping occurrences of a pattern, with explicit fuel
(`re.findall(re.escape(pat), hay)` for a non-empty literal pattern). -/
def countOccurAux : ℕ → List Char → List Char → ℕ
  | 0, _, _ => 0
  | _ + 1, [], _ => 0
  | n + 1, h :: t, pat =>
    if pat ≠ [] ∧ pat.isPrefixOf (h :: t) then
      1 + countOccurAux n ((h :: t).drop pat.length) pat
    else countOccurAux n t pat

/-- Count of non-overlapping occurrences of `pat` in `hay`. -/
def countOccur (hay pat : String) : ℕ := countOccurAux hay.length hay.toList pat.toList

/-- Embedding of `_get_idiom_rate` (lines 68-70). -/
def getIdiomRate (a : TAnalyser) : ℚ :=
  let c := (idiomsList.map (fun i => countOccur a.text_lower i)).sum
  if wordCount a > 0 then ((c : ℚ) / (wordCount a : ℚ)) else 0

/-- Embedding of `_get_contraction_rate` (lines 72-73): count of words in
the contraction set over the word count. -/
def getContractionRate (a : TAnalyser) : ℚ :=
  if wordCount a > 0 then
    ((a.words.countP (fun w => contractionsSet.contains w) : ℚ) / (wordCount a : ℚ))
  else 0

/-- Embedding of `_get_cap_ratio` (lines 75-76): uppercase characters over
all characters of the raw text. -/
def getCapRate (a : TAnalyser) : ℚ :=
  if a.char_count > 0 then
    ((a.raw.toList.countP Char.isUpper : ℚ) / (a.char_count : ℚ))
  else 0

/-- Embedding of `_get_stop_rate` (lines 78-79). -/
def getStopRate (ext : TextExt) (a : TAnalyser) : ℚ :=
  if wordCount a > 0 then
    ((a.words.countP (fun w => ext.stopwords.contains w) : ℚ) / (wordCount a : ℚ))
  else 0

/-- Embedding of `_get_punc_freq` (lines 81-83): per-punctuation-character
frequency over the character count, keys in first-occurrence order. -/
def getPuncFreq (a : TAnalyser) : List (String × Val) :=
  let ps := a.raw.toList.filter (fun c => puncChars.toList.contains c)
  if a.char_count > 0 then
    (firstOccur ps).map (fun c =>
      (String.singleton c, Val.vnum ((ps.count c : ℚ) / (a.char_count : ℚ))))
  else []

/-- Embedding of `_get_typos_rate` (lines 85-91): unknown words (external
spellchecker) not in the whitelist, over the word count. -/
def getTyposRate (ext : TextExt) (wl : List String) (a : TAnalyser) : ℚ :=
  if wordCount a = 0 then 0
  else
    (((ext.spellUnknown a.words).filter (fun w => !wl.contains w)).length : ℚ)
      / (wordCount a : ℚ)

/-- Count of maximal runs of non-ASCII characters, the embedding of
`re.findall` with pattern "one or more characters above 0x7F". -/
def nonAsciiRuns : List Char → Bool → ℕ
  | [], _ => 0
  | c :: t, inRun =>
    if c.toNat > 127 then (if inRun then 0 else 1) + nonAsciiRuns t true
    else nonAsciiRuns t false

/-- Embedding of `_get_emoji_rate` (lines 93-95): non-ASCII runs over the
character count. -/
def getEmojiRate (a : TAnalyser) : ℚ :=
  if a.char_count > 0 then
    ((nonAsciiRuns a.raw.toList false : ℚ) / (a.char_count : ℚ))
  else 0

/-- Embedding of `_get_salutation_rate` (lines 97-100). -/
def getSalutationRate (a : TAnalyser) : ℚ :=
  match a.words with
  | w :: _ => if salutations.contains w then 1 else 0
  | [] => 0

/-- Embedding of `_get_quoting_style` (lines 102-106). -/
def getQuotingStyle (a : TAnalyser) : String :=
  let s := a.raw.toList.count apos
  let d := a.raw.toList.count dquote
  if s > d then "single-quotes"
  else if d > s then "double-quotes"
  else "none/mixed"

/-- Embedding of `_get_abbreviation_rate` (lines 108-120): whitelisted
words plus short non-dictionary words fuzzy-matching a phonetic target. -/
def getAbbrevRate (ext : TextExt) (wl : List String) (a : TAnalyser) : ℚ :=
  if wordCount a = 0 then 0
  else
    let direct := a.words.countP (fun w => wl.contains w)
    let phonetic := a.words.countP (fun w =>
      !wl.contains w && w.length ≤ 3 && !ext.spellKnown w &&
        phoneticTargets.any (fun t => ext.fuzzScore w t > 70))
    (((direct + phonetic) : ℚ) / (wordCount a : ℚ))

/-- The all-`None` diagnostics mapping returned by `get_diagnostics` for
input with no words and no raw text (lines 124-128); its key list is the
`TextAbstract` field list in the same order. -/
def noneDiag : RawMap := textFields.map (fun k => (k, Val.vnone))

/-- Embedding of `TextAnalyser.Analyser.get_diagnostics` (lines 122-144),
with the whitelist file contents `wl` supplied externally. -/
def getDiagnostics (ext : TextExt) (wl : List String) (text : String) : RawMap :=
  let a := mkAnalyser ext text
  if a.words.isEmpty && a.raw.isEmpty then noneDiag
  else
    [("vocabulary-diversity", Val.vnum (getDiversity a)),
     ("word-preferences", Val.vdict ((getPrefs ext a).map (fun p => (p.1, Val.vnum p.2)))),
     ("slang-rate", Val.vnum (getSlangRate a)),
     ("Idiom-preferences", Val.vnum (getIdiomRate a)),
     ("Contraction-rate", Val.vnum (getContractionRate a)),
     ("capitalization-ratio", Val.vnum (getCapRate a)),
     ("stop-words-rate", Val.vnum (getStopRate ext a)),
     ("punctuation-frequency", Val.vdict (getPuncFreq a)),
     ("typos-rate", Val.vnum (getTyposRate ext wl a)),
     ("emoji-rate", Val.vnum (getEmojiRate a)),
     ("salutation-rate", Val.vnum (getSalutationRate a)),
     ("quoting-style", Val.vstr (getQuotingStyle a)),
     ("abbreviation-rate", Val.vnum (getAbbrevRate ext wl a))]

/-- Embedding of `AudioAnalyser.Analyser.get_analysis` (AudioAnalyser.py
lines 35-89) with the DSP primitives abstracted as inputs: `f0Mean`,
`f0Std`, `jitter`, `shimmer` are `none` when the praat call returned NaN;
`mfccMean` is the librosa MFCC mean vector; `meanDb`, `maxDb` are the
intensity statistics; `peaks` the intensity peak count and `duration` the
total duration.  The body's `try`/`except` converts any exception into a
single-key error mapping; with a zero duration the expression
`peaks / duration` (line 71) raises `ZeroDivisionError`, so the result is
the error mapping, not a metric mapping. -/
def audioGetAnalysis (f0Mean f0Std : Option ℚ) (mfccMean : List ℚ)
    (jitter shimmer : Option ℚ) (meanDb maxDb : ℚ) (peaks : ℕ)
    (duration : ℚ) : RawMap :=
  if duration = 0 then [("error", Val.vstr ("float division by zero"))]
  else
    [("pitch", Val.vdict
        [("mean_f0_hz", match f0Mean with | some q => Val.vnum (round2 q) | none => Val.vnone),
         ("stdev_f0_hz", match f0Std with | some q => Val.vnum (round2 q) | none => Val.vnone)]),
     ("rhythm", Val.vdict
        [("syllabic_rate_proxy", Val.vnum (round2 ((peaks : ℚ) / duration))),
         ("total_duration_sec", Val.vnum (round2 duration))]),
     ("timbre", Val.vdict
        [("spectral_centroid_vectors", Val.vlist (mfccMean.map (fun x => Val.vnum (roundTo 3 x))))]),
     ("accent", Val.vstr ("HEURISTIC_REQUIRED: Requires linguistic phoneme distribution model.")),
     ("pronunciations", Val.vstr ("ASR_REQUIRED: Requires acoustic-to-text alignment model.")),
     ("intensity", Val.vdict
        [("mean_db", Val.vnum (round2 meanDb)),
         ("max_db", Val.vnum (round2 maxDb))]),
     ("idiosyncrasies", Val.vdict
        [("jitter_local_pct", match jitter with | some q => Val.vnum (round4 (q * 100)) | none => Val.vnone),
         ("shimmer_local_pct", match shimmer with | some q => Val.vnum (round4 (q * 100)) | none => Val.vnone)])]

/-- Python exception escaping `extract_etoken` uncaught:
`FileNotFoundError` from `AudioAnalyser.__init__` (AudioAnalyser.py lines
17-18), `AttributeError` from the call to the non-existent
`TextAnalyser.Analyser.get_analysis` (main.py line 72), `KeyError` from a
supplied baseline mapping missing a modality key (main.py lines 81-82),
or `TypeError` from `compute_delta`'s nested subtraction. -/
inductive PyErr where
  | fileNotFound
  | attributeError
  | keyError
  | typeError

/-- The `EToken` namedtuple of main.py lines 10-13. -/
structure EToken where
  logical_schema : String
  emotion_schema : String
  base_abstract : BaseMap
  current_abstract : List (String × Option Abstract)

/-- Default baseline of `extract_etoken` step 1 (main.py lines 65-69): one
all-unset instance per modality. -/
def defaultBase : BaseMap :=
  [("text", mkAbstract textFields []),
   ("audio", mkAbstract audioFields []),
   ("video", mkAbstract videoFields [])]

/-- Baseline provisioning `base = base_profiles or {...}` (main.py line
65): an empty supplied mapping is falsy in Python, so it is replaced by
the default baseline exactly like an absent one. -/
def resolveBase : Option BaseMap → BaseMap
  | some bp => if bp.isEmpty then defaultBase else bp
  | none => defaultBase

/-- Python truthiness of the optional `text` argument: `None` and the
empty string are falsy. -/
def textTruthy : Option String → Bool
  | some s => !s.isEmpty
  | none => false

/-- Rendering of a JSON object from already-rendered member strings, with
`json.dumps` default separators. -/
def renderObj (entries : List (String × String)) : String :=
  "\x7b" ++ String.intercalate (", ") (entries.map (fun kv => "\"" ++ kv.1 ++ "\": " ++ kv.2)) ++ "\x7d"

/-- Rendering of a rational number for the serialized deviation summary.
Python's `json.dumps` float formatting is excluded by the spec as a
serialization-formatting concern; no claim depends on the digits, only on
the object structure, which this rendering preserves. -/
def renderQ (q : ℚ) : String :=
  if q.den = 1 then toString q.num else toString q.num ++ "/" ++ toString q.den

/-- Rendering of one deviation-slot value. -/
def renderDVal : DVal → String
  | .dnum q => renderQ q
  | .ddict m => renderObj (m.map (fun kv => (kv.1, renderQ kv.2)))

/-- Rendering of one modality's deviation mapping. -/
def renderDeltaMap (dm : DeltaMap) : String :=
  renderObj (dm.map (fun kv => (kv.1, renderDVal kv.2)))

/-- Embedding of `json.dumps(delta_a)` (main.py line 90). -/
def jsonDumpsDeltaA (da : List (String × DeltaMap)) : String :=
  renderObj (da.map (fun kv => (kv.1, renderDeltaMap kv.2)))

/-- The `delta_a` dictionary of main.py lines 80-83: exactly the keys
`text_deviation` and `audio_deviation`, in that order. -/
def mkDeltaA (textDev audioDev : DeltaMap) : List (String × DeltaMap) :=
  [("text_deviation", textDev), ("audio_deviation", audioDev)]

/-- The serialized deviation summary `delta_prefix` of main.py line 90. -/
def deltaTag (textDev audioDev : DeltaMap) : String :=
  "[DELTA_A: " ++ jsonDumpsDeltaA (mkDeltaA textDev audioDev) ++ "]"

/-- Embedding of `extract_etoken` (main.py lines 60-98).

The `audio` argument models the supplied `audio_path` channel by the
outcome of `AudioAnalyser(audio_path)`: `none` when no (or an empty) path
is supplied, `some (.error ())` when the path does not exist (the
constructor raises `FileNotFoundError` before `get_analysis`'s
`try`/`except` is reached), and `some (.ok raw)` when `get_analysis()`
returned the raw mapping `raw` (possibly the single-key error mapping).
`video_path` is accepted and never read, as in the source.  A truthy
`text` makes line 72 call `TextAnalyser(text).get_analysis()`, a method
that does not exist on `TextAnalyser.Analyser` (its method is
`get_diagnostics`), so Python raises `AttributeError` there. -/
def extractEtoken (text : Option String) (audio : Option (Except Unit RawMap))
    (videoPath : Option String) (baseProfiles : Option BaseMap) :
    Except PyErr EToken :=
  let base := resolveBase baseProfiles
  if textTruthy text then .error PyErr.attributeError
  else
    let currText : Option Abstract := none
    match (match audio with
           | none => Except.ok (none : Option Abstract)
           | some (.error _) => Except.error PyErr.fileNotFound
           | some (.ok raw) =>
             Except.ok (some (mkAbstract audioFields
               (raw.filter (fun kv => audioFields.contains kv.1))))) with
    | .error e => .error e
    | .ok currAudio =>
      match lk base ("text") with
      | none => .error PyErr.keyError
      | some baseText =>
        match computeDelta currText (some baseText) with
        | .error _ => .error PyErr.typeError
        | .ok textDev =>
          match lk base ("audio") with
          | none => .error PyErr.keyError
          | some baseAudio =>
            match computeDelta currAudio (some baseAudio) with
            | .error _ => .error PyErr.typeError
            | .ok audioDev =>
              let logicalSchema := if textTruthy text then text.getD "" else ""
              let tag := deltaTag textDev audioDev
              let emotionSchema :=
                if textTruthy text then tag ++ " " ++ (text.getD "") else tag
              .ok { logical_schema := logicalSchema
                    emotion_schema := emotionSchema
                    base_abstract := base
                    current_abstract := [("text", currText), ("audio", currAudio)] }

/-- Companion of `slotDelta` returning what the slot contributes to the
deviation mapping when `compute_delta` does not raise (`none` = slot
omitted). -/
def slotDeltaOpt (cv bv : Val) : Option DVal :=
  match slotDelta cv bv with
  | .ok r => r
  | .error _ => none

/-- Text-analyser externals for concrete evaluations: a tokenizer with no
output, no stopwords, a spellchecker that knows every word, a zero fuzzy
score. -/
def ext0 : TextExt :=
  { tokenize := fun _ => [], stopwords := [], spellUnknown := fun _ => [],
    spellKnown := fun _ => false, fuzzScore := fun _ _ => 0 }

/-- The spec scenario text `"I'm so tired lol, lol!"`. -/
def textC4 : String := "I" ++ aposS ++ "m so tired lol, lol!"

/-- NLTK `word_tokenize` output on the lowercased scenario text: the punkt
treebank tokenizer splits the contraction into `i` and `'m` and separates
punctuation. -/
def tokensC4 : List String := ["i", aposS ++ "m", "so", "tired", "lol", ",", "lol", "!"]

/-- Externals whose tokenizer returns the scenario token list. -/
def extC4 : TextExt := { ext0 with tokenize := fun _ => tokensC4 }

/-- The all-unset audio instance `AudioAbstract()`. -/
def allUnsetAudio : Abstract := mkAbstract audioFields []

/-- Token produced by `extract_etoken` with no text and no audio input. -/
def emptyTok : EToken :=
  { logical_schema := ""
    emotion_schema := deltaTag [] []
    base_abstract := defaultBase
    current_abstract := [("text", none), ("audio", none)] }

/-- Token produced when the audio analyser returns an error mapping: the
audio modality carries the all-unset instance, not absence. -/
def c2Token : EToken :=
  { logical_schema := ""
    emotion_schema := deltaTag [] []
    base_abstract := defaultBase
    current_abstract := [("text", none), ("audio", some allUnsetAudio)] }

/-- Current instance whose pitch slot holds a numeric nested value. -/
def c3cexCur : Abstract :=
  mkAbstract audioFields [("pitch", Val.vdict [("mean_f0_hz", Val.vnum 195)])]

/-- Baseline whose pitch slot holds a `None` nested value for the same key
(exactly what a previous `get_analysis` run produces when the praat pitch
call returned NaN). -/
def c3cexBase : Abstract :=
  mkAbstract audioFields [("pitch", Val.vdict [("mean_f0_hz", Val.vnone)])]

/-- Current instance for the C3 witness: one shared numeric key, one
non-numeric key, one numeric key missing from the baseline. -/
def c3wCur : Abstract :=
  mkAbstract audioFields
    [("pitch", Val.vdict
      [("mean_f0_hz", Val.vnum 195), ("note", Val.vstr "x"), ("extra", Val.vnum 7)])]

/-- Baseline for the C3 witness: the shared key numeric, plus a key only
the baseline has. -/
def c3wBase : Abstract :=
  mkAbstract audioFields
    [("pitch", Val.vdict [("mean_f0_hz", Val.vnum 180), ("other", Val.vnum 9)])]

/-- Nested pitch mapping of `c3wCur`. -/
def c3wPC : List (String × Val) :=
  [("mean_f0_hz", Val.vnum 195), ("note", Val.vstr "x"), ("extra", Val.vnum 7)]

/-- Nested pitch mapping of `c3wBase`. -/
def c3wPB : List (String × Val) :=
  [("mean_f0_hz", Val.vnum 180), ("other", Val.vnum 9)]

/-- Deviation mapping of the C3 witness pair. -/
def c3wD : DeltaMap := [("pitch", DVal.ddict [("mean_f0_hz", (15 : ℚ))])]

/-- First C6 witness instance: rhythm 3, mean pitch 195. -/
def c6wA : Abstract :=
  mkAbstract audioFields
    [("rhythm", Val.vnum 3), ("pitch", Val.vdict [("mean_f0_hz", Val.vnum 195)])]

/-- Second C6 witness instance: rhythm 1, mean pitch 180. -/
def c6wB : Abstract :=
  mkAbstract audioFields
    [("rhythm", Val.vnum 1), ("pitch", Val.vdict [("mean_f0_hz", Val.vnum 180)])]

/-- Deviation of `c6wA` against `c6wB`. -/
def c6wD1 : DeltaMap :=
  [("pitch", DVal.ddict [("mean_f0_hz", (15 : ℚ))]), ("rhythm", DVal.dnum 2)]

/-- Deviation of `c6wB` against `c6wA`. -/
def c6wD2 : DeltaMap :=
  [("pitch", DVal.ddict [("mean_f0_hz", (-15 : ℚ))]), ("rhythm", DVal.dnum (-2))]

/-- C7 witness instance: rhythm 7, mean pitch 180. -/
def c7wX : Abstract :=
  mkAbstract audioFields
    [("rhythm", Val.vnum 7), ("pitch", Val.vdict [("mean_f0_hz", Val.vnum 180)])]
lemma qfloor_eq (q : ℚ) : qfloor q = ⌊q⌋ := Rat.floor_def.symm

lemma qfract_eq (q : ℚ) : qfract q = Int.fract q := by
  rw [qfract, qfloor_eq]
  exact Int.self_sub_floor q

lemma rhe_low {q : ℚ} (h : Int.fract q < 1/2) : rhe q = ⌊q⌋ := by
  rw [rhe, qfract_eq, if_pos h, qfloor_eq]

lemma rhe_high {q : ℚ} (h : 1/2 < Int.fract q) : rhe q = ⌊q⌋ + 1 := by
  rw [rhe, qfract_eq, if_neg (not_lt.mpr h.le), if_pos h, qfloor_eq]

lemma rhe_mid {q : ℚ} (h : Int.fract q = 1/2) :
    rhe q = if ⌊q⌋ % 2 = 0 then ⌊q⌋ else ⌊q⌋ + 1 := by
  rw [rhe, qfract_eq, if_neg (by rw [h]; exact lt_irrefl _),
    if_neg (by rw [h]; exact lt_irrefl _), qfloor_eq]

lemma rhe_intCast (z : ℤ) : rhe ((z : ℤ) : ℚ) = z := by
  rw [rhe_low (by simp [Int.fract_intCast]), Int.floor_intCast]

lemma floor_neg_of_fract_ne {q : ℚ} (hz : Int.fract q ≠ 0) : ⌊-q⌋ = -⌊q⌋ - 1 := by
  have hfr : Int.fract (-q) = 1 - Int.fract q := Int.fract_neg hz
  have h1 : Int.fract q = q - (⌊q⌋ : ℚ) := (Int.self_sub_floor q).symm
  have h2 : Int.fract (-q) = -q - (⌊-q⌋ : ℚ) := (Int.self_sub_floor (-q)).symm
  have : ((⌊-q⌋ : ℤ) : ℚ) = ((-⌊q⌋ - 1 : ℤ) : ℚ) := by
    push_cast
    rw [h2, h1] at hfr
    linarith
  exact_mod_cast this

lemma rhe_neg (q : ℚ) : rhe (-q) = -rhe q := by
  by_cases hz : Int.fract q = 0
  · obtain ⟨z, hq⟩ : ∃ z : ℤ, q = (z : ℚ) := ⟨⌊q⌋, by
      have h1 := Int.self_sub_floor q
      rw [hz] at h1
      linarith⟩
    subst hq
    rw [← Int.cast_neg, rhe_intCast, rhe_intCast]
  · have hfr : Int.fract (-q) = 1 - Int.fract q := Int.fract_neg hz
    have hfl : ⌊-q⌋ = -⌊q⌋ - 1 := floor_neg_of_fract_ne hz
    rcases lt_trichotomy (Int.fract q) (1/2) with hlt | heq | hgt
    · rw [rhe_high (by rw [hfr]; linarith), rhe_low hlt, hfl]
      ring
    · rw [rhe_mid (by rw [hfr, heq]; norm_num), rhe_mid heq, hfl]
      by_cases hp : ⌊q⌋ % 2 = 0
      · rw [if_pos hp, if_neg (by omega)]
        omega
      · rw [if_neg hp, if_pos (by omega)]
        omega
    · rw [rhe_low (by rw [hfr]; linarith), rhe_high hgt, hfl]
      ring

lemma roundTo_intCast (p : ℕ) (z : ℤ) : roundTo p ((z : ℤ) : ℚ) = (z : ℚ) := by
  rw [roundTo]
  have h10 : ((10 : ℚ) ^ p) = (((10 ^ p : ℤ) : ℚ)) := by push_cast; ring
  rw [h10, ← Int.cast_mul, rhe_intCast]
  push_cast
  have hne : ((10 : ℚ) ^ p) ≠ 0 := by positivity
  field_simp

lemma round4_zero : round4 0 = 0 := by
  have := roundTo_intCast 4 0
  simpa [round4] using this

lemma round4_neg (q : ℚ) : round4 (-q) = -round4 q := by
  rw [round4, round4, roundTo, roundTo, neg_mul, rhe_neg]
  push_cast
  ring

lemma round4_sub_comm (a b : ℚ) : round4 (b - a) = -round4 (a - b) := by
  rw [← round4_neg, neg_sub]

lemma round4_self_sub (a : ℚ) : round4 (a - a) = 0 := by
  rw [sub_self, round4_zero]

lemma round4_intCast (z : ℤ) : round4 ((z : ℤ) : ℚ) = (z : ℚ) := roundTo_intCast 4 z

lemma lk_cons (a : String) (v : α) (t : List (String × α)) (k : String) :
    lk ((a, v) :: t) k = if a = k then some v else lk t k := rfl

lemma lk_mem {l : List (String × α)} {k : String} {v : α} (h : lk l k = some v) :
    (k, v) ∈ l := by
  induction l with
  | nil => simp [lk] at h
  | cons p t ih =>
    obtain ⟨a, w⟩ := p
    rw [lk_cons] at h
    by_cases ha : a = k
    · rw [if_pos ha] at h
      subst ha
      cases h
      exact List.mem_cons_self _ _
    · rw [if_neg ha] at h
      exact List.mem_cons_of_mem _ (ih h)

lemma lk_eq_none_of_not_mem {l : List (String × α)} {k : String}
    (h : k ∉ l.map Prod.fst) : lk l k = none := by
  induction l with
  | nil => rfl
  | cons p t ih =>
    obtain ⟨a, w⟩ := p
    simp only [List.map_cons, List.mem_cons] at h
    push_neg at h
    rw [lk_cons, if_neg (fun he => h.1 he.symm)]
    exact ih h.2

lemma lk_of_mem_nodup {l : List (String × α)} (hnd : (l.map Prod.fst).Nodup)
    {k : String} {v : α} (h : (k, v) ∈ l) : lk l k = some v := by
  induction l with
  | nil => simp at h
  | cons p t ih =>
    obtain ⟨a, w⟩ := p
    simp only [List.map_cons, List.nodup_cons] at hnd
    rcases List.mem_cons.mp h with he | ht
    · cases he
      rw [lk_cons, if_pos rfl]
    · have hk : a ≠ k := by
        rintro rfl
        exact hnd.1 (List.mem_map.mpr ⟨(a, v), ht, rfl⟩)
      rw [lk_cons, if_neg hk]
      exact ih hnd.2 ht

lemma nestedDelta_ok_eq_spec {c b : List (String × Val)} {nd : List (String × ℚ)}
    (h : nestedDelta c b = .ok nd) : nd = specNestedDelta c b := by
  induction c generalizing nd with
  | nil =>
    cases h
    rfl
  | cons p t ih =>
    obtain ⟨k, v⟩ := p
    cases v with
    | vnum cq =>
      rw [nestedDelta] at h
      cases hb : lk b k with
      | none =>
        rw [hb] at h
        simp only [specNestedDelta, hb]
        exact ih h
      | some bv =>
        rw [hb] at h
        cases bv with
        | vnum bq =>
          cases ht : nestedDelta t b with
          | error e => rw [ht] at h; cases h
          | ok tnd =>
            rw [ht] at h
            cases h
            rw [specNestedDelta, hb, ← ih ht]
        | vstr s => cases h
        | vdict d => cases h
        | vlist l => cases h
        | vnone => cases h
    | vstr s => simp only [specNestedDelta]; exact ih h
    | vdict d => simp only [specNestedDelta]; exact ih h
    | vlist l => simp only [specNestedDelta]; exact ih h
    | vnone => simp only [specNestedDelta]; exact ih h

lemma specNestedDelta_keys_sub {c b : List (String × Val)} {k : String}
    (h : k ∈ (specNestedDelta c b).map Prod.fst) : k ∈ c.map Prod.fst := by
  induction c with
  | nil => simp [specNestedDelta] at h
  | cons p t ih =>
    obtain ⟨a, v⟩ := p
    simp only [List.map_cons, List.mem_cons]
    cases v with
    | vnum cq =>
      cases hb : lk b a with
      | none =>
        rw [specNestedDelta, hb] at h
        exact Or.inr (ih h)
      | some bv =>
        cases bv with
        | vnum bq =>
          rw [specNestedDelta, hb] at h
          simp only [List.map_cons, List.mem_cons] at h
          rcases h with he | ht
          · exact Or.inl he
          · exact Or.inr (ih ht)
        | vstr s => rw [specNestedDelta, hb] at h; exact Or.inr (ih h)
        | vdict d => rw [specNestedDelta, hb] at h; exact Or.inr (ih h)
        | vlist l => rw [specNestedDelta, hb] at h; exact Or.inr (ih h)
        | vnone => rw [specNestedDelta, hb] at h; exact Or.inr (ih h)
    | vstr s => simp only [specNestedDelta] at h; exact Or.inr (ih h)
    | vdict d => simp only [specNestedDelta] at h; exact Or.inr (ih h)
    | vlist l => simp only [specNestedDelta] at h; exact Or.inr (ih h)
    | vnone => simp only [specNestedDelta] at h; exact Or.inr (ih h)

lemma lk_specNestedDelta_of {c b : List (String × Val)} {k : String} {cq bq : ℚ}
    (hnd : (c.map Prod.fst).Nodup)
    (hc : lk c k = some (.vnum cq)) (hb : lk b k = some (.vnum bq)) :
    lk (specNestedDelta c b) k = some (round4 (cq - bq)) := by
  induction c with
  | nil => simp [lk] at hc
  | cons p t ih =>
    obtain ⟨a, v⟩ := p
    simp only [List.map_cons, List.nodup_cons] at hnd
    by_cases ha : a = k
    · subst ha
      rw [lk_cons, if_pos rfl] at hc
      cases hc
      rw [specNestedDelta, hb, lk_cons, if_pos rfl]
    · rw [lk_cons, if_neg ha] at hc
      have htail := ih hnd.2 hc
      cases v with
      | vnum cq' =>
        cases hba : lk b a with
        | none => rw [specNestedDelta, hba]; exact htail
        | some bv =>
          cases bv with
          | vnum bq' =>
            rw [specNestedDelta, hba, lk_cons, if_neg ha]
            exact htail
          | vstr s => rw [specNestedDelta, hba]; exact htail
          | vdict d => rw [specNestedDelta, hba]; exact htail
          | vlist l => rw [specNestedDelta, hba]; exact htail
          | vnone => rw [specNestedDelta, hba]; exact htail
      | vstr s => simp only [specNestedDelta]; exact htail
      | vdict d => simp only [specNestedDelta]; exact htail
      | vlist l => simp only [specNestedDelta]; exact htail
      | vnone => simp only [specNestedDelta]; exact htail

lemma lk_specNestedDelta_inv {c b : List (String × Val)} {k : String} {x : ℚ}
    (hnd : (c.map Prod.fst).Nodup)
    (h : lk (specNestedDelta c b) k = some x) :
    ∃ cq bq, lk c k = some (.vnum cq) ∧ lk b k = some (.vnum bq) ∧
      x = round4 (cq - bq) := by
  induction c with
  | nil => simp [specNestedDelta, lk] at h
  | cons p t ih =>
    obtain ⟨a, v⟩ := p
    simp only [List.map_cons, List.nodup_cons] at hnd
    have hanone : a = k → lk (specNestedDelta t b) k = none := by
      rintro rfl
      exact lk_eq_none_of_not_mem (fun hm => hnd.1 (specNestedDelta_keys_sub hm))
    by_cases ha : a = k
    · subst ha
      cases v with
      | vnum cq =>
        cases hb : lk b a with
        | none =>
          simp only [specNestedDelta, hb] at h
          rw [hanone rfl] at h
          cases h
        | some bv =>
          cases bv with
          | vnum bq =>
            rw [specNestedDelta, hb, lk_cons, if_pos rfl] at h
            cases h
            refine ⟨cq, bq, ?_, rfl, rfl⟩
            rw [lk_cons, if_pos rfl]
          | vstr s => simp only [specNestedDelta, hb] at h; rw [hanone rfl] at h; cases h
          | vdict d => simp only [specNestedDelta, hb] at h; rw [hanone rfl] at h; cases h
          | vlist l => simp only [specNestedDelta, hb] at h; rw [hanone rfl] at h; cases h
          | vnone => simp only [specNestedDelta, hb] at h; rw [hanone rfl] at h; cases h
      | vstr s => simp only [specNestedDelta] at h; rw [hanone rfl] at h; cases h
      | vdict d => simp only [specNestedDelta] at h; rw [hanone rfl] at h; cases h
      | vlist l => simp only [specNestedDelta] at h; rw [hanone rfl] at h; cases h
      | vnone => simp only [specNestedDelta] at h; rw [hanone rfl] at h; cases h
    · have tail : lk (specNestedDelta t b) k = some x → _ := ih hnd.2
      have step : lk (specNestedDelta t b) k = some x →
          ∃ cq bq, lk ((a, v) :: t) k = some (.vnum cq) ∧ lk b k = some (.vnum bq) ∧
            x = round4 (cq - bq) := by
        intro ht
        obtain ⟨cq', bq', h1, h2, h3⟩ := ih hnd.2 ht
        exact ⟨cq', bq', by rw [lk_cons, if_neg ha]; exact h1, h2, h3⟩
      cases v with
      | vnum cq =>
        cases hb : lk b a with
        | none => rw [specNestedDelta, hb] at h; exact step h
        | some bv =>
          cases bv with
          | vnum bq =>
            rw [specNestedDelta, hb, lk_cons, if_neg ha] at h
            exact step h
          | vstr s => rw [specNestedDelta, hb] at h; exact step h
          | vdict d => rw [specNestedDelta, hb] at h; exact step h
          | vlist l => rw [specNestedDelta, hb] at h; exact step h
          | vnone => rw [specNestedDelta, hb] at h; exact step h
      | vstr s => simp only [specNestedDelta] at h; exact step h
      | vdict d => simp only [specNestedDelta] at h; exact step h
      | vlist l => simp only [specNestedDelta] at h; exact step h
      | vnone => simp only [specNestedDelta] at h; exact step h

lemma nestedDelta_ok_of {c b : List (String × Val)}
    (h : ∀ k cq, (k, Val.vnum cq) ∈ c → ∀ bv, lk b k = some bv →
      ∃ bq, bv = Val.vnum bq) :
    ∃ nd, nestedDelta c b = .ok nd := by
  induction c with
  | nil => exact ⟨[], rfl⟩
  | cons p t ih =>
    obtain ⟨a, v⟩ := p
    have hth : ∀ k cq, (k, Val.vnum cq) ∈ t → ∀ bv, lk b k = some bv →
        ∃ bq, bv = Val.vnum bq :=
      fun k cq hm => h k cq (List.mem_cons_of_mem _ hm)
    obtain ⟨tnd, htnd⟩ := ih hth
    cases v with
    | vnum cq =>
      cases hb : lk b a with
      | none => exact ⟨tnd, by rw [nestedDelta, hb]; exact htnd⟩
      | some bv =>
        obtain ⟨bq, rfl⟩ := h a cq (List.mem_cons_self _ _) bv hb
        refine ⟨(a, round4 (cq - bq)) :: tnd, ?_⟩
        rw [nestedDelta, hb, htnd]
        rfl
    | vstr s => exact ⟨tnd, by simp only [nestedDelta]; exact htnd⟩
    | vdict d => exact ⟨tnd, by simp only [nestedDelta]; exact htnd⟩
    | vlist l => exact ⟨tnd, by simp only [nestedDelta]; exact htnd⟩
    | vnone => exact ⟨tnd, by simp only [nestedDelta]; exact htnd⟩

lemma slotDelta_num (cq bq : ℚ) :
    slotDelta (.vnum cq) (.vnum bq) = .ok (some (.dnum (round4 (cq - bq)))) := rfl

lemma slotDeltaOpt_num_inv {cv bv : Val} {x : ℚ}
    (h : slotDeltaOpt cv bv = some (.dnum x)) :
    ∃ cq bq, cv = .vnum cq ∧ bv = .vnum bq ∧ x = round4 (cq - bq) := by
  cases cv with
  | vnum cq =>
    cases bv with
    | vnum bq =>
      simp only [slotDeltaOpt, slotDelta, Option.some.injEq, DVal.dnum.injEq] at h
      exact ⟨cq, bq, rfl, rfl, h.symm⟩
    | vstr s => simp only [slotDeltaOpt, slotDelta] at h; exact Option.noConfusion h
    | vdict bd => simp only [slotDeltaOpt, slotDelta] at h; exact Option.noConfusion h
    | vlist l => simp only [slotDeltaOpt, slotDelta] at h; exact Option.noConfusion h
    | vnone => simp only [slotDeltaOpt, slotDelta] at h; exact Option.noConfusion h
  | vdict cd =>
    cases bv with
    | vnum bq => simp only [slotDeltaOpt, slotDelta] at h; exact Option.noConfusion h
    | vstr s => simp only [slotDeltaOpt, slotDelta] at h; exact Option.noConfusion h
    | vdict bd =>
      simp only [slotDeltaOpt, slotDelta] at h
      cases hnd : nestedDelta cd bd with
      | error e => rw [hnd] at h; simp only [Except.map] at h; exact Option.noConfusion h
      | ok nd =>
        rw [hnd] at h
        simp only [Except.map, Option.some.injEq] at h
        exact DVal.noConfusion h
    | vlist l => simp only [slotDeltaOpt, slotDelta] at h; exact Option.noConfusion h
    | vnone => simp only [slotDeltaOpt, slotDelta] at h; exact Option.noConfusion h
  | vstr s => simp only [slotDeltaOpt, slotDelta] at h; exact Option.noConfusion h
  | vlist l => simp only [slotDeltaOpt, slotDelta] at h; exact Option.noConfusion h
  | vnone => simp only [slotDeltaOpt, slotDelta] at h; exact Option.noConfusion h

lemma slotDeltaOpt_dict_inv {cv bv : Val} {m : List (String × ℚ)}
    (h : slotDeltaOpt cv bv = some (.ddict m)) :
    ∃ cd bd, cv = .vdict cd ∧ bv = .vdict bd ∧ nestedDelta cd bd = .ok m := by
  cases cv with
  | vnum cq =>
    cases bv with
    | vnum bq =>
      simp only [slotDeltaOpt, slotDelta, Option.some.injEq] at h
      exact DVal.noConfusion h
    | vstr s => simp only [slotDeltaOpt, slotDelta] at h; exact Option.noConfusion h
    | vdict bd => simp only [slotDeltaOpt, slotDelta] at h; exact Option.noConfusion h
    | vlist l => simp only [slotDeltaOpt, slotDelta] at h; exact Option.noConfusion h
    | vnone => simp only [slotDeltaOpt, slotDelta] at h; exact Option.noConfusion h
  | vdict cd =>
    cases bv with
    | vnum bq => simp only [slotDeltaOpt, slotDelta] at h; exact Option.noConfusion h
    | vstr s => simp only [slotDeltaOpt, slotDelta] at h; exact Option.noConfusion h
    | vdict bd =>
      simp only [slotDeltaOpt, slotDelta] at h
      cases hnd : nestedDelta cd bd with
      | error e => rw [hnd] at h; simp only [Except.map] at h; exact Option.noConfusion h
      | ok nd =>
        rw [hnd] at h
        simp only [Except.map, Option.some.injEq, DVal.ddict.injEq] at h
        exact ⟨cd, bd, rfl, rfl, by rw [hnd, h]⟩
    | vlist l => simp only [slotDeltaOpt, slotDelta] at h; exact Option.noConfusion h
    | vnone => simp only [slotDeltaOpt, slotDelta] at h; exact Option.noConfusion h
  | vstr s => simp only [slotDeltaOpt, slotDelta] at h; exact Option.noConfusion h
  | vlist l => simp only [slotDeltaOpt, slotDelta] at h; exact Option.noConfusion h
  | vnone => simp only [slotDeltaOpt, slotDelta] at h; exact Option.noConfusion h

lemma slotDeltaOpt_of_num {cq bq : ℚ} :
    slotDeltaOpt (.vnum cq) (.vnum bq) = some (.dnum (round4 (cq - bq))) := rfl

lemma slotDeltaOpt_of_dict {cd bd : List (String × Val)} {nd : List (String × ℚ)}
    (h : nestedDelta cd bd = .ok nd) :
    slotDeltaOpt (.vdict cd) (.vdict bd) = some (.ddict nd) := by
  simp only [slotDeltaOpt, slotDelta, h, Except.map]

lemma deltaFields_keys_sub {c b : List (String × Val)} {d : DeltaMap}
    (h : deltaFields c b = .ok d) {k : String}
    (hk : k ∈ d.map Prod.fst) : k ∈ c.map Prod.fst := by
  induction c generalizing d with
  | nil =>
    cases h
    simp at hk
  | cons p t ih =>
    obtain ⟨f, cv⟩ := p
    simp only [List.map_cons, List.mem_cons]
    cases hs : slotDelta cv (getattrD b f) with
    | error e => rw [deltaFields, hs] at h; cases h
    | ok r =>
      cases r with
      | none =>
        rw [deltaFields, hs] at h
        exact Or.inr (ih h hk)
      | some dv =>
        rw [deltaFields, hs] at h
        cases ht : deltaFields t b with
        | error e => rw [ht] at h; cases h
        | ok td =>
          rw [ht] at h
          cases h
          simp only [List.map_cons, List.mem_cons] at hk
          rcases hk with he | htl
          · exact Or.inl he
          · exact Or.inr (ih ht htl)

lemma deltaFields_ok_slot {c b : List (String × Val)} {d : DeltaMap}
    (h : deltaFields c b = .ok d) :
    ∀ kv ∈ c, ∃ r, slotDelta kv.2 (getattrD b kv.1) = .ok r := by
  induction c generalizing d with
  | nil => intro kv hkv; simp at hkv
  | cons p t ih =>
    obtain ⟨f, cv⟩ := p
    intro kv hkv
    cases hs : slotDelta cv (getattrD b f) with
    | error e => rw [deltaFields, hs] at h; cases h
    | ok r =>
      rcases List.mem_cons.mp hkv with he | htl
      · subst he
        exact ⟨r, hs⟩
      · cases r with
        | none =>
          rw [deltaFields, hs] at h
          exact ih h kv htl
        | some dv =>
          rw [deltaFields, hs] at h
          cases ht : deltaFields t b with
          | error e => rw [ht] at h; cases h
          | ok td => exact ih ht kv htl

lemma deltaFields_ok_of {c b : List (String × Val)}
    (h : ∀ kv ∈ c, ∃ r, slotDelta kv.2 (getattrD b kv.1) = .ok r) :
    ∃ d, deltaFields c b = .ok d := by
  induction c with
  | nil => exact ⟨[], rfl⟩
  | cons p t ih =>
    obtain ⟨f, cv⟩ := p
    obtain ⟨td, htd⟩ := ih (fun kv hkv => h kv (List.mem_cons_of_mem _ hkv))
    obtain ⟨r, hr⟩ := h (f, cv) (List.mem_cons_self _ _)
    cases r with
    | none => exact ⟨td, by rw [deltaFields, hr]; exact htd⟩
    | some dv =>
      refine ⟨(f, dv) :: td, ?_⟩
      rw [deltaFields, hr, htd]
      rfl

lemma lk_deltaFields {c b : List (String × Val)} {d : DeltaMap}
    (hnd : (c.map Prod.fst).Nodup) (h : deltaFields c b = .ok d) (f : String) :
    lk d f =
      match lk c f with
      | some cv => slotDeltaOpt cv (getattrD b f)
      | none => none := by
  induction c generalizing d with
  | nil =>
    cases h
    rfl
  | cons p t ih =>
    obtain ⟨g, cv⟩ := p
    simp only [List.map_cons, List.nodup_cons] at hnd
    by_cases hgf : g = f
    · subst hgf
      rw [lk_cons, if_pos rfl]
      cases hs : slotDelta cv (getattrD b g) with
      | error e => rw [deltaFields, hs] at h; cases h
      | ok r =>
        have hdnone : ∀ d', deltaFields t b = .ok d' → lk d' g = none := by
          intro d' hd'
          exact lk_eq_none_of_not_mem (fun hm => hnd.1 (deltaFields_keys_sub hd' hm))
        cases r with
        | none =>
          rw [deltaFields, hs] at h
          rw [hdnone d h]
          simp only [slotDeltaOpt, hs]
        | some dv =>
          rw [deltaFields, hs] at h
          cases ht : deltaFields t b with
          | error e => rw [ht] at h; cases h
          | ok td =>
            rw [ht] at h
            cases h
            rw [lk_cons, if_pos rfl]
            simp only [slotDeltaOpt, hs]
    · rw [lk_cons, if_neg hgf]
      cases hs : slotDelta cv (getattrD b g) with
      | error e => rw [deltaFields, hs] at h; cases h
      | ok r =>
        cases r with
        | none =>
          rw [deltaFields, hs] at h
          exact ih hnd.2 h
        | some dv =>
          rw [deltaFields, hs] at h
          cases ht : deltaFields t b with
          | error e => rw [ht] at h; cases h
          | ok td =>
            rw [ht] at h
            cases h
            rw [lk_cons, if_neg hgf]
            exact ih hnd.2 ht

lemma lk_of_getattrD {b : Abstract} {f : String} {v : Val}
    (h : getattrD b f = v) (hv : v ≠ Val.vnone) : lk b f = some v := by
  rw [getattrD] at h
  cases hlk : lk b f with
  | none =>
    rw [hlk] at h
    simp only [Option.getD] at h
    exact absurd h.symm hv
  | some w =>
    rw [hlk] at h
    simp only [Option.getD] at h
    rw [h]

lemma getattrD_of_lk {b : Abstract} {f : String} {v : Val}
    (h : lk b f = some v) : getattrD b f = v := by
  rw [getattrD, h]
  rfl

lemma WFAbstract.nested_nodup {A : Abstract} (hA : WFAbstract A) {f : String}
    {cd : List (String × Val)} (h : lk A f = some (.vdict cd)) :
    (cd.map Prod.fst).Nodup := by
  have hw := hA.2 _ (lk_mem h)
  simp only [wfValB] at hw
  exact List.dedup_eq_self.mp (by exact_mod_cast eq_of_beq hw)

lemma computeDelta_ok_nonempty {c b : Abstract} {d : DeltaMap}
    (hc : c ≠ []) (hb : b ≠ [])
    (h : computeDelta (some c) (some b) = .ok d) : deltaFields c b = .ok d := by
  have hce : c.isEmpty = false := by
    cases c
    · exact absurd rfl hc
    · rfl
  have hbe : b.isEmpty = false := by
    cases b
    · exact absurd rfl hb
    · rfl
  simpa [computeDelta, hce, hbe] using h

lemma lk_ne_nil {l : List (String × α)} {k : String} {v : α}
    (h : lk l k = some v) : l ≠ [] := by
  rintro rfl
  cases h

/-- Claim C6: for all Feature Schema instances `A` and `B` of the same
modality (well-formed, with both deviation computations succeeding), every
numeric entry of the deviation mappings satisfies
`compute_delta(A, B)[slot] == -compute_delta(B, A)[slot]`, both for
top-level numeric slots and key-wise inside nested mappings. -/
theorem c6_delta_antisymmetry (A B : Abstract) (hA : WFAbstract A) (hB : WFAbstract B)
    (d1 d2 : DeltaMap)
    (h1 : computeDelta (some A) (some B) = .ok d1)
    (h2 : computeDelta (some B) (some A) = .ok d2) :
    (∀ f x, lk d1 f = some (.dnum x) → lk d2 f = some (.dnum (-x))) ∧
    (∀ f m1, lk d1 f = some (.ddict m1) →
      ∃ m2, lk d2 f = some (.ddict m2) ∧
        ∀ k x, lk m1 k = some x → lk m2 k = some (-x)) := by
  by_cases hAe : A = []
  · subst hAe
    simp only [computeDelta, List.isEmpty_nil, Bool.true_or] at h1
    cases h1
    exact ⟨fun f x hx => Option.noConfusion hx, fun f m1 hm => Option.noConfusion hm⟩
  · by_cases hBe : B = []
    · subst hBe
      simp only [computeDelta, List.isEmpty_nil, Bool.or_true] at h1
      cases h1
      exact ⟨fun f x hx => Option.noConfusion hx, fun f m1 hm => Option.noConfusion hm⟩
    · have hd1 := computeDelta_ok_nonempty hAe hBe h1
      have hd2 := computeDelta_ok_nonempty hBe hAe h2
      constructor
      · intro f x hx
        have hc := lk_deltaFields hA.1 hd1 f
        rw [hx] at hc
        cases hAf : lk A f with
        | none => rw [hAf] at hc; cases hc
        | some cv =>
          rw [hAf] at hc
          obtain ⟨cq, bq, rfl, hg, rfl⟩ := slotDeltaOpt_num_inv hc.symm
          have hBf : lk B f = some (.vnum bq) := lk_of_getattrD hg (by intro hcon; cases hcon)
          have hc2 := lk_deltaFields hB.1 hd2 f
          have hc2x : lk d2 f = slotDeltaOpt (.vnum bq) (getattrD A f) := by
            rw [hc2, hBf]
          rw [getattrD_of_lk hAf] at hc2x
          rw [hc2x, slotDeltaOpt_of_num, round4_sub_comm]
      · intro f m1 hm1
        have hc := lk_deltaFields hA.1 hd1 f
        rw [hm1] at hc
        cases hAf : lk A f with
        | none => rw [hAf] at hc; cases hc
        | some cv =>
          rw [hAf] at hc
          obtain ⟨cd, bd, rfl, hg, hnd1⟩ := slotDeltaOpt_dict_inv hc.symm
          have hm1spec : m1 = specNestedDelta cd bd := nestedDelta_ok_eq_spec hnd1
          have hBf : lk B f = some (.vdict bd) := lk_of_getattrD hg (by intro hcon; cases hcon)
          have hcdn : (cd.map Prod.fst).Nodup := hA.nested_nodup hAf
          have hbdn : (bd.map Prod.fst).Nodup := hB.nested_nodup hBf
          obtain ⟨r, hr⟩ := deltaFields_ok_slot hd2 (f, Val.vdict bd) (lk_mem hBf)
          rw [getattrD_of_lk hAf] at hr
          cases hnd2 : nestedDelta bd cd with
          | error e =>
            rw [slotDelta, hnd2] at hr
            cases hr
          | ok m2 =>
            have hc2 := lk_deltaFields hB.1 hd2 f
            have hc2x : lk d2 f = slotDeltaOpt (.vdict bd) (.vdict cd) := by
              rw [hc2, hBf, getattrD_of_lk hAf]
            rw [slotDeltaOpt_of_dict hnd2] at hc2x
            refine ⟨m2, hc2x, ?_⟩
            intro k x hk
            rw [hm1spec] at hk
            obtain ⟨cq', bq', hcd, hbd, rfl⟩ := lk_specNestedDelta_inv hcdn hk
            rw [nestedDelta_ok_eq_spec hnd2]
            rw [lk_specNestedDelta_of hbdn hbd hcd, round4_sub_comm]

/-- Claim C7: for every (well-formed) Feature Schema instance `X`,
`compute_delta(X, X)` succeeds and yields an all-zero numeric entry for
every slot that is present and numeric in `X`, and an all-zero nested
mapping for every nested-mapping slot of `X`. -/
theorem c7_self_delta_zero (X : Abstract) (hX : WFAbstract X) :
    ∃ d, computeDelta (some X) (some X) = .ok d ∧
      (∀ f q, lk X f = some (.vnum q) → lk d f = some (.dnum 0)) ∧
      (∀ f cd, lk X f = some (.vdict cd) →
        ∃ nd, lk d f = some (.ddict nd) ∧ ∀ k x, lk nd k = some x → x = 0) := by
  by_cases hXe : X = []
  · subst hXe
    refine ⟨[], rfl, ?_, ?_⟩
    · intro f q hq
      cases hq
    · intro f cd hcd
      cases hcd
  · have hslots : ∀ kv ∈ X, ∃ r, slotDelta kv.2 (getattrD X kv.1) = .ok r := by
      intro kv hkv
      have hlk : lk X kv.1 = some kv.2 := lk_of_mem_nodup hX.1 (by
        rw [show (kv.1, kv.2) = kv from rfl]
        exact hkv)
      rw [getattrD_of_lk hlk]
      cases hv : kv.2 with
      | vnum cq => exact ⟨some (.dnum (round4 (cq - cq))), rfl⟩
      | vdict cd =>
        have hcdn : (cd.map Prod.fst).Nodup := hX.nested_nodup (hv ▸ hlk)
        have hcond : ∀ k cq, (k, Val.vnum cq) ∈ cd → ∀ bv, lk cd k = some bv →
            ∃ bq, bv = Val.vnum bq := by
          intro k cq hm bv hb
          rw [lk_of_mem_nodup hcdn hm] at hb
          cases hb
          exact ⟨cq, rfl⟩
        obtain ⟨nd, hnd⟩ := nestedDelta_ok_of hcond
        exact ⟨some (.ddict nd), by simp only [slotDelta, hnd, Except.map]⟩
      | vstr s => exact ⟨none, rfl⟩
      | vlist l => exact ⟨none, rfl⟩
      | vnone => exact ⟨none, rfl⟩
    obtain ⟨d, hd⟩ := deltaFields_ok_of hslots
    have hXne : X.isEmpty = false := by
      cases X
      · exact absurd rfl hXe
      · rfl
    refine ⟨d, by simp [computeDelta, hXne]; exact hd, ?_, ?_⟩
    · intro f q hq
      have hc := lk_deltaFields hX.1 hd f
      have : lk d f = slotDeltaOpt (.vnum q) (getattrD X f) := by
        rw [hc, hq]
      rw [getattrD_of_lk hq] at this
      rw [this, slotDeltaOpt_of_num, round4_self_sub]
    · intro f cd hcd
      have hc := lk_deltaFields hX.1 hd f
      have hx : lk d f = slotDeltaOpt (.vdict cd) (getattrD X f) := by
        rw [hc, hcd]
      rw [getattrD_of_lk hcd] at hx
      obtain ⟨r, hr⟩ := deltaFields_ok_slot hd (f, Val.vdict cd) (lk_mem hcd)
      rw [getattrD_of_lk hcd] at hr
      cases hnd : nestedDelta cd cd with
      | error e =>
        rw [slotDelta, hnd] at hr
        cases hr
      | ok nd =>
        rw [slotDeltaOpt_of_dict hnd] at hx
        refine ⟨nd, hx, ?_⟩
        intro k x hk
        have hcdn : (cd.map Prod.fst).Nodup := hX.nested_nodup hcd
        rw [nestedDelta_ok_eq_spec hnd] at hk
        obtain ⟨cq, bq, h1, h2, rfl⟩ := lk_specNestedDelta_inv hcdn hk
        rw [h1] at h2
        cases h2
        exact round4_self_sub _

/-- Claim C3 (amended): when `compute_delta` returns at all, a slot whose
values are nested mappings on both sides yields exactly the mapping the
spec describes (`specNestedDelta`: keys present in both mappings and
numeric on both sides, value `round(current[key] - baseline[key], 4)`;
other keys dropped silently).  The amendment: if some key is numeric on
the current side and present but non-numeric on the baseline side, the
subtraction raises `TypeError` instead of dropping the key — see the
counterexample. -/
theorem c3_dict_slot_spec (c b : Abstract) (d : DeltaMap) (f : String)
    (cd bd : List (String × Val))
    (hnd : (c.map Prod.fst).Nodup)
    (h : computeDelta (some c) (some b) = .ok d)
    (hf : lk c f = some (.vdict cd)) (hb : getattrD b f = .vdict bd) :
    lk d f = some (.ddict (specNestedDelta cd bd)) := by
  have hbf : lk b f = some (.vdict bd) := lk_of_getattrD hb (by intro hcon; cases hcon)
  have hdf := computeDelta_ok_nonempty (lk_ne_nil hf) (lk_ne_nil hbf) h
  obtain ⟨r, hr⟩ := deltaFields_ok_slot hdf (f, Val.vdict cd) (lk_mem hf)
  rw [hb] at hr
  cases hnd2 : nestedDelta cd bd with
  | error e =>
    rw [slotDelta, hnd2] at hr
    cases hr
  | ok nd =>
    have hc := lk_deltaFields hnd hdf f
    have hx : lk d f = slotDeltaOpt (.vdict cd) (getattrD b f) := by
      rw [hc, hf]
    rw [hb, slotDeltaOpt_of_dict hnd2] at hx
    rw [hx, nestedDelta_ok_eq_spec hnd2]

lemma q195_180 : round4 ((195 : ℚ) - (180 : ℚ)) = 15 := by
  have harg : ((195 : ℚ) - (180 : ℚ)) = ((15 : ℤ) : ℚ) := by norm_num
  rw [harg, round4_intCast]
  norm_num

lemma q3_1 : round4 ((3 : ℚ) - (1 : ℚ)) = 2 := by
  have harg : ((3 : ℚ) - (1 : ℚ)) = ((2 : ℤ) : ℚ) := by norm_num
  rw [harg, round4_intCast]
  norm_num

lemma q1_3 : round4 ((1 : ℚ) - (3 : ℚ)) = -2 := by
  have harg : ((1 : ℚ) - (3 : ℚ)) = ((-2 : ℤ) : ℚ) := by norm_num
  rw [harg, round4_intCast]
  norm_num

lemma q180_195 : round4 ((180 : ℚ) - (195 : ℚ)) = -15 := by
  have harg : ((180 : ℚ) - (195 : ℚ)) = ((-15 : ℤ) : ℚ) := by norm_num
  rw [harg, round4_intCast]
  norm_num

lemma c6wd1 : computeDelta (some c6wA) (some c6wB) =
    .ok [("pitch", DVal.ddict [("mean_f0_hz", (15 : ℚ))]), ("rhythm", DVal.dnum 2)] := by
  have hstruct : computeDelta (some c6wA) (some c6wB) =
      .ok [("pitch", DVal.ddict [("mean_f0_hz", round4 ((195 : ℚ) - (180 : ℚ)))]),
           ("rhythm", DVal.dnum (round4 ((3 : ℚ) - (1 : ℚ))))] := rfl
  rw [hstruct, q195_180, q3_1]

lemma c6wd2 : computeDelta (some c6wB) (some c6wA) =
    .ok [("pitch", DVal.ddict [("mean_f0_hz", (-15 : ℚ))]), ("rhythm", DVal.dnum (-2))] := by
  have hstruct : computeDelta (some c6wB) (some c6wA) =
      .ok [("pitch", DVal.ddict [("mean_f0_hz", round4 ((180 : ℚ) - (195 : ℚ)))]),
           ("rhythm", DVal.dnum (round4 ((1 : ℚ) - (3 : ℚ))))] := rfl
  rw [hstruct, q180_195, q1_3]

lemma contraction_not_alnum : ∀ s ∈ contractionsSet, pyIsAlnum s = false := by decide

lemma alnum_not_contraction {w : String} (hw : pyIsAlnum w = true) :
    contractionsSet.contains w = false := by
  by_contra hc
  rw [Bool.not_eq_false, List.contains_iff_exists_mem_beq] at hc
  obtain ⟨s, hs, hbeq⟩ := hc
  have hws : w = s := eq_of_beq hbeq
  subst hws
  rw [contraction_not_alnum w hs] at hw
  cases hw

lemma contraction_rate_always_zero (ext : TextExt) (text : String) :
    getContractionRate (mkAnalyser ext text) = 0 := by
  have hz : (mkAnalyser ext text).words.countP
      (fun w => contractionsSet.contains w) = 0 := by
    rw [List.countP_eq_zero]
    intro w hw
    have halnum : pyIsAlnum w = true := (List.mem_filter.mp hw).2
    intro hcon
    rw [alnum_not_contraction halnum] at hcon
    cases hcon
  rw [getContractionRate, hz]
  split
  · norm_num
  · rfl

lemma wordsC4 (ext : TextExt) (h : ext.tokenize textC4.toLower = tokensC4) :
    (mkAnalyser ext textC4).words = ["i", "so", "tired", "lol", "lol"] := by
  show (ext.tokenize textC4.toLower).filter pyIsAlnum = _
  rw [h]
  rfl

/-- Claim C4: for the text `"I'm so tired lol, lol!"` (tokenized by the
external punkt model into `tokensC4`), the analyser yields word count 5,
vocabulary diversity 4/5 and slang rate 2/5 > 0 as the spec says — but the
contraction rate is 0, not > 0: the tokenizer splits `i'm` into `i`/`'m`,
the alphanumeric filter removes `'m`, and no alphanumeric token can ever
equal an entry of `_CONTRACTIONS` (each contains an apostrophe), so the
contraction rate is 0 for every input (final conjunct). -/
theorem c4_scenario (ext : TextExt) (h : ext.tokenize textC4.toLower = tokensC4) :
    wordCount (mkAnalyser ext textC4) = 5 ∧
    getDiversity (mkAnalyser ext textC4) = 4/5 ∧
    getSlangRate (mkAnalyser ext textC4) = 2/5 ∧
    getContractionRate (mkAnalyser ext textC4) = 0 ∧
    (∀ (ext' : TextExt) (t : String), getContractionRate (mkAnalyser ext' t) = 0) := by
  have hw := wordsC4 ext h
  have hwc : wordCount (mkAnalyser ext textC4) = 5 := by
    rw [wordCount, hw]
    rfl
  refine ⟨hwc, ?_, ?_, contraction_rate_always_zero ext textC4,
    fun ext' t => contraction_rate_always_zero ext' t⟩
  · rw [getDiversity, hwc, hw]
    have hd : (["i", "so", "tired", "lol", "lol"] : List String).dedup.length = 4 := by decide
    rw [hd]
    norm_num
  · rw [getSlangRate, hwc, hw]
    have hs : (["i", "so", "tired", "lol", "lol"] : List String).countP
        (fun w => slangSet.contains w) = 2 := by decide
    rw [hs]
    norm_num

/-- Claim C5: on zero-length text the analyser returns the all-`None`
(unset) diagnostics mapping, as the claim says; but on zero-duration audio
the code divides `peaks` by the duration with no guard, raising
`ZeroDivisionError`, which `get_analysis` converts to the single-key error
mapping — the rate metrics are not yielded as "unset". -/
theorem c5_degenerate_metrics :
    (∀ (ext : TextExt) (wl : List String), ext.tokenize ("" : String).toLower = [] →
      getDiagnostics ext wl "" = noneDiag) ∧
    (∀ (f0m f0s : Option ℚ) (mf : List ℚ) (j s : Option ℚ) (mdb xdb : ℚ) (pk : ℕ),
      audioGetAnalysis f0m f0s mf j s mdb xdb pk 0 =
        [("error", Val.vstr ("float division by zero"))]) := by
  constructor
  · intro ext wl h
    rw [getDiagnostics]
    have hw : (mkAnalyser ext "").words = [] := by
      show (ext.tokenize ("" : String).toLower).filter pyIsAlnum = _
      rw [h]
      rfl
    rw [hw]
    rfl
  · intro f0m f0s mf j s mdb xdb pk
    rw [audioGetAnalysis.eq_def, if_pos rfl]

/-- Claim C9: `video_path` has no effect on `extract_etoken` — two calls
differing only in it return identical results; any returned Token's
current-abstract keys are exactly `text` and `audio`; the serialized
deviation summary `delta_a` has exactly the keys `text_deviation` and
`audio_deviation`. -/
theorem c9_video_noop (text : Option String) (audio : Option (Except Unit RawMap))
    (vp vp' : Option String) (bp : Option BaseMap) :
    (extractEtoken text audio vp bp = extractEtoken text audio vp' bp) ∧
    (∀ tok, extractEtoken text audio vp bp = .ok tok →
      tok.current_abstract.map Prod.fst = ["text", "audio"] ∧
      ∃ td ad, tok.emotion_schema = deltaTag td ad) ∧
    (∀ td ad, (mkDeltaA td ad).map Prod.fst = ["text_deviation", "audio_deviation"]) := by
  refine ⟨rfl, ?_, fun td ad => rfl⟩
  intro tok htok
  simp only [extractEtoken] at htok
  by_cases ht : textTruthy text
  · rw [if_pos ht] at htok
    cases htok
  · rw [if_neg ht] at htok
    repeat' split at htok
    all_goals cases htok
    all_goals first
      | exact absurd ‹textTruthy text = true› ht
      | exact ⟨rfl, _, _, rfl⟩


/-- Claim C1: evaluation at the failing input.  With no text and an
`audio_path` that does not exist, `AudioAnalyser.__init__` raises
`FileNotFoundError` (AudioAnalyser.py lines 17-18) before
`get_analysis`'s `try`/`except` can produce an error indicator, and
`extract_etoken` has no handler, so the exception escapes the assembler
and no Token is returned — contradicting the claim that the failure is
confined and a Token is still produced. -/
theorem c1_missing_audio_file_escapes (vp : Option String) (bp : Option BaseMap) :
    extractEtoken none (some (.error ())) vp bp = .error PyErr.fileNotFound := rfl

/-- Claim C2 counterexample: when the audio analyser returns the single-key
error mapping, the Token's current abstract maps `audio` to a Feature
Schema instance — the all-unset one — not to absence; the claim says it
must map the modality to absence. -/
theorem c2_counterexample :
    extractEtoken none (some (.ok [("error", Val.vstr ("boom"))])) none none =
      .ok c2Token ∧
    lk c2Token.current_abstract ("audio") = some (some allUnsetAudio) ∧
    (some (some allUnsetAudio) : Option (Option Abstract)) ≠ some none :=
  ⟨rfl, rfl, fun hcon => Option.noConfusion (Option.some.inj hcon)⟩

/-- Claim C2 (amended): whenever the analyser returns the single-key error
mapping `{"error": msg}`, the assembler records the all-unset Feature
Schema instance for that modality (the `error` key is filtered out in
main.py line 76, so the raw error never reaches the schema, and the audio
deviation mapping is empty — the emotion schema is the bare tag); the
result does not depend on the error message.  What fails in the original
claim is only "no current instance": the modality maps to the all-unset
instance, not to absence. -/
theorem c2_error_mapping_amended (msg : String) (vp : Option String) :
    extractEtoken none (some (.ok [("error", Val.vstr msg)])) vp none = .ok c2Token := rfl

/-- Claim C3 counterexample: a pair of audio instances whose pitch slots
are both nested mappings, with the shared key numeric on the current side
and `None` (non-numeric) on the baseline side.  The claim says such keys
are dropped silently and no error is raised; the code instead raises
`TypeError` from `c_val[k] - b_val[k]`, aborting `compute_delta`. -/
theorem c3_counterexample :
    computeDelta (some c3cexCur) (some c3cexBase) = .error () := rfl

lemma c3w_ok : computeDelta (some c3wCur) (some c3wBase) = .ok c3wD := by
  have hstruct : computeDelta (some c3wCur) (some c3wBase) =
      .ok [("pitch", DVal.ddict [("mean_f0_hz", round4 ((195 : ℚ) - (180 : ℚ)))])] := rfl
  rw [hstruct, q195_180]
  rfl

/-- Witness for the amended claim C3 at a concrete pair of instances. -/
theorem c3_dict_slot_spec_witness :
    (c3wCur.map Prod.fst).Nodup ∧
    computeDelta (some c3wCur) (some c3wBase) = .ok c3wD ∧
    lk c3wCur ("pitch") = some (.vdict c3wPC) ∧
    getattrD c3wBase ("pitch") = .vdict c3wPB ∧
    lk c3wD ("pitch") = some (.ddict (specNestedDelta c3wPC c3wPB)) :=
  ⟨by decide, c3w_ok, rfl, rfl,
    c3_dict_slot_spec c3wCur c3wBase c3wD ("pitch") c3wPC c3wPB
      (by decide) c3w_ok rfl rfl⟩

/-- Witness for claim C4: the concrete externals `extC4` tokenize the
scenario text into `tokensC4`, and the four metric values follow. -/
theorem c4_scenario_witness :
    extC4.tokenize textC4.toLower = tokensC4 ∧
    (wordCount (mkAnalyser extC4 textC4) = 5 ∧
     getDiversity (mkAnalyser extC4 textC4) = 4/5 ∧
     getSlangRate (mkAnalyser extC4 textC4) = 2/5 ∧
     getContractionRate (mkAnalyser extC4 textC4) = 0 ∧
     (∀ (ext' : TextExt) (t : String), getContractionRate (mkAnalyser ext' t) = 0)) :=
  ⟨rfl, c4_scenario extC4 rfl⟩

/-- Witness for claim C5: concrete externals tokenizing the empty string
to no tokens, with the all-unset diagnostics mapping as result. -/
theorem c5_degenerate_metrics_witness :
    ext0.tokenize ("" : String).toLower = [] ∧
    getDiagnostics ext0 [] "" = noneDiag :=
  ⟨rfl, c5_degenerate_metrics.1 ext0 [] rfl⟩

/-- Witness for claim C6 at a concrete pair of audio instances
(baseline mean pitch 180, current 195; rhythm 1 against 3). -/
theorem c6_delta_antisymmetry_witness :
    WFAbstract c6wA ∧ WFAbstract c6wB ∧
    computeDelta (some c6wA) (some c6wB) = .ok c6wD1 ∧
    computeDelta (some c6wB) (some c6wA) = .ok c6wD2 ∧
    lk c6wD1 ("rhythm") = some (DVal.dnum 2) ∧
    lk c6wD2 ("rhythm") = some (DVal.dnum (-(2 : ℚ))) :=
  ⟨⟨by decide, by decide⟩, ⟨by decide, by decide⟩, c6wd1, c6wd2, rfl,
    (c6_delta_antisymmetry c6wA c6wB ⟨by decide, by decide⟩ ⟨by decide, by decide⟩
      c6wD1 c6wD2 c6wd1 c6wd2).1 ("rhythm") 2 rfl⟩

/-- Witness for claim C7 at a concrete audio instance. -/
theorem c7_self_delta_zero_witness :
    WFAbstract c7wX ∧
    (∃ d, computeDelta (some c7wX) (some c7wX) = .ok d ∧
      (∀ f q, lk c7wX f = some (.vnum q) → lk d f = some (.dnum 0)) ∧
      (∀ f cd, lk c7wX f = some (.vdict cd) →
        ∃ nd, lk d f = some (.ddict nd) ∧ ∀ k x, lk nd k = some x → x = 0)) :=
  ⟨⟨by decide, by decide⟩, c7_self_delta_zero c7wX ⟨by decide, by decide⟩⟩

/-- Claim C8: with no text and no audio input (whatever `video_path` is),
`extract_etoken` returns the Token with empty logical schema, emotion
schema equal to the bare serialized deviation tag alone, the default
baseline, and no current instance for any modality; the tag's concrete
value is the serialized pair of empty deviation mappings. -/
theorem c8_no_inputs (vp : Option String) :
    extractEtoken none none vp none = .ok emptyTok ∧
    emptyTok.emotion_schema =
      "[DELTA_A: \x7b\"text_deviation\": \x7b\x7d, \"audio_deviation\": \x7b\x7d\x7d]" ∧
    emptyTok.logical_schema = "" ∧
    lk emptyTok.current_abstract ("text") = some none ∧
    lk emptyTok.current_abstract ("audio") = some none :=
  ⟨rfl, rfl, rfl, rfl, rfl⟩

/-- Witness for claim C9: instantiation at concrete inputs, with the
second and third conjuncts discharged via the no-input token. -/
theorem c9_video_noop_witness :
    (extractEtoken none none none none = extractEtoken none none (some ("v.mp4")) none) ∧
    emptyTok.current_abstract.map Prod.fst = ["text", "audio"] ∧
    (∃ td ad, emptyTok.emotion_schema = deltaTag td ad) ∧
    (mkDeltaA [] []).map Prod.fst = ["text_deviation", "audio_deviation"] := by
  have h := c9_video_noop none none none (some ("v.mp4")) none
  have h2 := (c9_video_noop none none none (some ("v.mp4")) none).2.1 emptyTok rfl
  exact ⟨h.1, h2.1, h2.2, (c9_video_noop none none none (some ("v.mp4")) none).2.2 [] []⟩

/-- Claim C10: a supplied-but-empty baseline mapping is falsy in
`base_profiles or {...}` (main.py line 65), so it is replaced by the
default all-unset baseline exactly as when no baseline is supplied; for
any inputs the two calls return the same result. -/
theorem c10_empty_baseline (text : Option String) (audio : Option (Except Unit RawMap))
    (vp : Option String) :
    extractEtoken text audio vp (some []) = extractEtoken text audio vp none ∧
    resolveBase (some []) = defaultBase ∧
    defaultBase = [("text", mkAbstract textFields []),
                   ("audio", mkAbstract audioFields []),
                   ("video", mkAbstract videoFields [])] :=
  ⟨rfl, rfl, rfl⟩
